import Mathlib

/-!
Shallow embedding of the MediPredict inference engine
(`ml/src/api/predictor.py`, `ml/src/api/validators.py`, `ml/src/api/app.py`).

Modelling conventions:
* Python numbers are embedded as `PyFloat`: finite values are exact rationals,
  plus the three non-finite IEEE values (`nan`, `inf`, `-inf`).  Comparisons
  involving `nan` are false, as in IEEE/Python.
* Python request dictionaries are embedded as a `Request` record of optional
  fields; `data.get(k)` is field access, `data.get(k, d)` is `Option.getD`.
* A Python `dict` used as a string-keyed index is embedded as a function
  `List Char → Option Nat`; insertion-if-absent updates the function.
* Strings are processed as their character lists (`String.data`); the
  `str.lower` / regex character classes of Python are modelled over ASCII, as is
  exact for every string any theorem below evaluates (all are ASCII).
* `raise`/`except` control flow is embedded with `Except String`; a `raise`
  inside a `try` whose handler is `pass` has no effect and is embedded as
  such (see `predict` and claim C1).
-/

/-- Rational addition in a kernel-computable form (`Rat.add` itself is
`@[irreducible]`); proved equal to `+` in `qadd_eq` below. -/
def qadd (a b : ℚ) : ℚ :=
  Rat.divInt (a.num * (b.den : ℤ) + b.num * (a.den : ℤ)) ((a.den : ℤ) * (b.den : ℤ))

/-- Rational multiplication in a kernel-computable form; proved equal to `*`
in `qmul_eq` below. -/
def qmul (a b : ℚ) : ℚ :=
  Rat.divInt (a.num * b.num) ((a.den : ℤ) * (b.den : ℤ))

/-- Kernel-computable sum of a list of rationals. -/
def sumQ (l : List ℚ) : ℚ :=
  l.foldl qadd 0

/-- `10 ^ n` over the integers, in a kernel-computable form. -/
def tenPow : ℕ → ℤ
  | 0 => 1
  | n + 1 => 10 * tenPow n

/-- Embedding of a Python float / int value: an exact rational, or one of the
non-finite IEEE floats. -/
inductive PyFloat where
  | fin (q : ℚ)
  | nan
  | inf
  | ninf
deriving DecidableEq

namespace PyFloat

/-- IEEE `<` on embedded floats: any comparison with `nan` is false. -/
def lt : PyFloat → PyFloat → Bool
  | .fin a, .fin b => decide (a < b)
  | .ninf, .fin _ => true
  | .ninf, .inf => true
  | .fin _, .inf => true
  | _, _ => false

/-- `numpy.isfinite`. -/
def isFinite : PyFloat → Bool
  | .fin _ => true
  | _ => false

/-- IEEE addition on embedded floats (`nan` absorbs; `inf + -inf = nan`). -/
def add : PyFloat → PyFloat → PyFloat
  | .nan, _ => .nan
  | _, .nan => .nan
  | .inf, .ninf => .nan
  | .ninf, .inf => .nan
  | .inf, _ => .inf
  | _, .inf => .inf
  | .ninf, _ => .ninf
  | _, .ninf => .ninf
  | .fin a, .fin b => .fin (qadd a b)

/-- IEEE equality with `0.0` (`nan == 0.0` and `inf == 0.0` are false). -/
def eqZero : PyFloat → Bool
  | .fin q => decide (q = 0)
  | _ => false

end PyFloat

/-- Embedding of the scalar Python values that can appear as a request field
or a symptom-list entry: `None`, strings, ints, floats.  (A nested list as a
*list entry* is not representable; no claim involves one.) -/
inductive PyVal where
  | vnone
  | vstr (s : String)
  | vint (n : ℤ)
  | vfloat (x : PyFloat)
deriving DecidableEq

/-- Embedding of the value stored under the `symptoms` key: either a scalar
or a list of scalars. -/
inductive PyTop where
  | scalar (v : PyVal)
  | list (xs : List PyVal)
deriving DecidableEq

namespace PyVal

/-- Python truthiness (`bool(v)`) of a scalar: `None`, `""`, `0` and `0.0`
are falsy; `nan` and the infinities are truthy. -/
def truthy : PyVal → Bool
  | .vnone => false
  | .vstr s => decide (s ≠ "")
  | .vint n => decide (n ≠ 0)
  | .vfloat (.fin q) => decide (q ≠ 0)
  | .vfloat _ => true

/-- Membership of `isinstance(v, str)`. -/
def isStr : PyVal → Bool
  | .vstr _ => true
  | _ => false

/-- Membership of `isinstance(v, (int, float, str))` (validators.py:93). -/
def isStrOrNum : PyVal → Bool
  | .vstr _ => true
  | .vint _ => true
  | .vfloat _ => true
  | _ => false

end PyVal

namespace PyTop

/-- Python truthiness of the `symptoms` value: an empty list is falsy. -/
def truthy : PyTop → Bool
  | .scalar v => v.truthy
  | .list xs => decide (xs ≠ [])

/-- `isinstance(v, list)`. -/
def isList : PyTop → Bool
  | .list _ => true
  | _ => false

/-- The entries of a list value (`[]` for scalars; only read under an
`isList` guard, mirroring the source). -/
def entries : PyTop → List PyVal
  | .list xs => xs
  | .scalar _ => []

end PyTop

/-- Python `repr` of a finite rational standing for a float.  Integral floats
print faithfully (`1.0`); other floats never reach a string position in any
theorem of this file, so their textual form is schematic. -/
def floatRepr : PyFloat → String
  | .nan => "nan"
  | .inf => "inf"
  | .ninf => "-inf"
  | .fin q => if q.den = 1 then toString q.num ++ ".0" else toString q.num ++ "e?"

/-- Python `str(v)` as applied by `_norm` (predictor.py:61) to a symptom list
entry.  Strings are returned as-is; every theorem below only ever evaluates
this on strings (non-string entries are either skipped as falsy or fail to
match the vocabulary). -/
def pyToStr : PyVal → String
  | .vstr s => s
  | .vint n => toString n
  | .vfloat x => floatRepr x
  | .vnone => "None"

/-! ## Symptom normalizer (predictor.py:60-64, validators.py:13-20) -/

/-- ASCII whitespace, the characters matched by the regex class `\s` (and
removed by `str.strip`) in the ASCII range. -/
def isWs (c : Char) : Bool :=
  c == ' ' || c == '\t' || c == '\n' || c == '\x0d' || c == '\x0b' || c == '\x0c'

/-- The characters kept by the regex class `[a-z0-9 ]` (codepoints: lowercase
ASCII letters 97-122, digits 48-57, space 32). -/
def isKeep (c : Char) : Bool :=
  (97 ≤ c.toNat && c.toNat ≤ 122) || (48 ≤ c.toNat && c.toNat ≤ 57) || c.toNat == 32

/-- Drop trailing whitespace (the right half of `str.strip`). -/
def trimR (l : List Char) : List Char :=
  ((l.reverse).dropWhile isWs).reverse

/-- `str.strip`: drop leading and trailing whitespace. -/
def stripL (l : List Char) : List Char :=
  trimR (l.dropWhile isWs)

/-- One character of `re.sub(r"[\s_]+", " ", s)`: whitespace and underscores
become spaces. -/
def toSpace (c : Char) : Char :=
  if isWs c || c == '_' then ' ' else c

/-- Collapse each run of consecutive spaces to a single space (the `+` of
`re.sub(r"[\s_]+", " ", s)` after `toSpace`). -/
def squeeze : List Char → List Char
  | [] => []
  | [c] => [c]
  | c :: d :: rest =>
      if c == ' ' && d == ' ' then squeeze (d :: rest)
      else c :: squeeze (d :: rest)

/-- The normalization pipeline of `_norm` (predictor.py:60-64):
lowercase, strip, collapse whitespace/underscore runs to single spaces,
drop every character outside `[a-z0-9 ]`. -/
def normList (l : List Char) : List Char :=
  ((squeeze ((stripL (l.map Char.toLower)).map toSpace)).filter isKeep)

/-- `_norm` of predictor.py:60-64 on strings. -/
def _norm (s : String) : String :=
  String.mk (normList s.data)

/-- Character list of `_norm s`; the canonical form used as index key. -/
def normChars (s : String) : List Char :=
  normList s.data

/-- `normalize_symptom` (validators.py:13-20): same pipeline (strip before
lower, which commutes) followed by a second `strip`. -/
def normalize_symptom_list (l : List Char) : List Char :=
  stripL ((squeeze (((stripL l).map Char.toLower).map toSpace)).filter isKeep)

/-- `normalize_symptom` of validators.py on strings. -/
def normalize_symptom (s : String) : String :=
  String.mk (normalize_symptom_list s.data)

/-! ## Variant generator and vocabulary index (predictor.py:66-81) -/

/-- Whether the character list `l` ends with `suf`. -/
def endsWithL (l suf : List Char) : Bool :=
  decide (l.reverse.take suf.length = suf.reverse)

/-- Drop the last `n` characters. -/
def dropLastN (l : List Char) (n : ℕ) : List Char :=
  l.take (l.length - n)

/-- `_variants` (predictor.py:66-74): the base string itself, then the base
with a trailing `ing` / `ed` / `s` removed — three independent checks, in
generator order. -/
def _variants (base : List Char) : List (List Char) :=
  base ::
    ((if endsWithL base ['i', 'n', 'g'] then [dropLastN base 3] else []) ++
     (if endsWithL base ['e', 'd'] then [dropLastN base 2] else []) ++
     (if endsWithL base ['s'] then [dropLastN base 1] else []))

/-- Boolean membership of a key in a list of keys. -/
def containsL (xs : List (List Char)) (k : List Char) : Bool :=
  xs.any (fun x => decide (x = k))

/-- `if v not in vocab_index: vocab_index[v] = idx` (predictor.py:80-81) on
the dictionary modelled as a lookup function: an existing binding wins. -/
def insertIfAbsent (m : List Char → Option ℕ) (k : List Char) (i : ℕ) :
    List Char → Option ℕ :=
  fun q => if q = k then some ((m k).getD i) else m q

/-- Insert every variant of one vocabulary entry (the inner loop of
predictor.py:79-81). -/
def insertAll (m : List Char → Option ℕ) (vs : List (List Char)) (i : ℕ) :
    List Char → Option ℕ :=
  vs.foldl (fun acc v => insertIfAbsent acc v i) m

/-- The enumeration loop of predictor.py:77-81, carrying the running index. -/
def vocab_index_aux : ℕ → List String → (List Char → Option ℕ) →
    (List Char → Option ℕ)
  | _, [], m => m
  | i, s :: rest, m => vocab_index_aux (i + 1) rest (insertAll m (_variants (normChars s)) i)

/-- `vocab_index` built from the symptom vocabulary (predictor.py:76-81):
maps each normalized entry and its variants to the position of the first
vocabulary entry that produced it. -/
def vocab_index (vocab : List String) : List Char → Option ℕ :=
  vocab_index_aux 0 vocab (fun _ => Option.none)

/-- The request-side matching loop body (predictor.py:91-95): try the variants of the key
itself in order and return the position of the first one present in
the index. -/
def findHit (m : List Char → Option ℕ) : List (List Char) → Option ℕ
  | [] => Option.none
  | v :: vs =>
      match m v with
      | some i => some i
      | Option.none => findHit m vs

/-- Matching one symptom string against the index: normalize it, then check
its variants in order (predictor.py:90-95). -/
def matchSymptomStr (m : List Char → Option ℕ) (s : String) : Option ℕ :=
  findHit m (_variants (normChars s))

/-- The position in `L` of the first element satisfying `p`. -/
def firstMatchIdx (p : String → Bool) : List String → Option ℕ
  | [] => Option.none
  | s :: rest =>
      if p s then some 0 else (firstMatchIdx p rest).map (· + 1)

/-! ## Artifact bundle and request (predictor.py:9-43, app.py request JSON) -/

/-- A trained label encoder: `classes_` in trained order.
`inverse_transform([c])[0]` is list indexing with the sklearn unseen-label
check, i.e. it raises (here: `Option.none`) outside `[0, len)`. -/
structure LabelEncoder where
  classes : List String
deriving DecidableEq

/-- The `label_encoders.pkl` mapping: at most the keys `disease` and
`target` are consulted (predictor.py:174-183, 190-193). -/
structure Encoders where
  disease : Option LabelEncoder
  target : Option LabelEncoder
deriving DecidableEq

/-- The trained classifier: `predict` on a feature vector, and the optional
`predict_proba` capability. -/
structure Model where
  predictClass : List PyFloat → ℤ
  predictProba : Option (List PyFloat → List ℚ)

/-- The loaded artifact bundle held by `DiseasePredictor` (predictor.py:12-43):
model, optional scaler, label encoders, symptom vocabulary. -/
structure Bundle where
  model : Model
  scaler : Option (List PyFloat → List PyFloat)
  label_encoders : Encoders
  symptom_vocabulary : List String

/-- A prediction request dictionary: the `symptoms` key and the seven vitals
keys, each possibly absent. -/
structure Request where
  symptoms : Option PyTop
  age : Option PyVal
  gender : Option PyVal
  weight : Option PyVal
  blood_pressure_systolic : Option PyVal
  blood_pressure_diastolic : Option PyVal
  glucose : Option PyVal
  cholesterol : Option PyVal
deriving DecidableEq

/-- The all-absent request (`{}`). -/
def emptyRequest : Request :=
  ⟨Option.none, Option.none, Option.none, Option.none, Option.none,
   Option.none, Option.none, Option.none⟩

/-- `data.get(field, 0)` followed by the numpy numeric coercion
(predictor.py:116-124): an absent field contributes `0`; a numeric field
contributes its value; a non-numeric field is outside the model
(numpy would build a non-numeric array). -/
def asPyFloat : Option PyVal → Option PyFloat
  | Option.none => some (.fin 0)
  | some (.vint n) => some (.fin (n : ℚ))
  | some (.vfloat x) => some x
  | some _ => Option.none

/-- The fixed 7-element vitals vector in field order: age, gender, weight,
systolic BP, diastolic BP, glucose, cholesterol (predictor.py:116-124). -/
def vitalsVec (d : Request) : Option (List PyFloat) := do
  let a ← asPyFloat d.age
  let g ← asPyFloat d.gender
  let w ← asPyFloat d.weight
  let sbp ← asPyFloat d.blood_pressure_systolic
  let dbp ← asPyFloat d.blood_pressure_diastolic
  let gl ← asPyFloat d.glucose
  let ch ← asPyFloat d.cholesterol
  pure [a, g, w, sbp, dbp, gl, ch]

/-! ## Feature builder (predictor.py:56-144) -/

/-- One iteration of the symptom matching loop (predictor.py:87-100).  State:
the one-hot vector and the `matched` / `unmatched` diagnostic lists.  Falsy
entries are skipped (`if not s: continue`). -/
def symptomStep (m : List Char → Option ℕ)
    (st : List ℚ × List PyVal × List PyVal) (s : PyVal) :
    List ℚ × List PyVal × List PyVal :=
  if s.truthy then
    match matchSymptomStr m (pyToStr s) with
    | some i => (st.1.set i 1, st.2.1 ++ [s], st.2.2)
    | Option.none => (st.1, st.2.1, st.2.2 ++ [s])
  else st

/-- The whole matching loop over the symptom entries, starting from the
zero vector of vocabulary length (predictor.py:83-100). -/
def symptomLoop (m : List Char → Option ℕ) (n : ℕ) (xs : List PyVal) :
    List ℚ × List PyVal × List PyVal :=
  xs.foldl (symptomStep m) (List.replicate n 0, [], [])

/-- Path selection and raw feature construction (predictor.py:56-136):
the symptom path is entered when the vocabulary is non-empty and `symptoms`
is a list; it is *used* only when the resulting one-hot vector is non-zero,
otherwise the vitals vector is built.  Returns the features (before any
scaling) and `used_symptoms_path`; `Option.none` marks the unmodelled case
of a non-numeric vitals field reaching numpy. -/
def rawFeatures (b : Bundle) (d : Request) : Option (List PyFloat × Bool) :=
  if !b.symptom_vocabulary.isEmpty
      && (match d.symptoms with | some t => t.isList | Option.none => false) then
    let xs := (d.symptoms.getD (.list [])).entries
    let st := symptomLoop (vocab_index b.symptom_vocabulary)
        b.symptom_vocabulary.length xs
    if 0 < sumQ st.1 then some (st.1.map PyFloat.fin, true)
    else (vitalsVec d).map (fun v => (v, false))
  else (vitalsVec d).map (fun v => (v, false))

/-- `self.scaler.transform` when a scaler is present, identity otherwise. -/
def applyScaler : Option (List PyFloat → List PyFloat) → List PyFloat → List PyFloat
  | Option.none, v => v
  | some f, v => f v

/-- Scaling (predictor.py:138-144): the scaler is applied only when present
and the symptom path was not used. -/
def scaledFeatures (b : Bundle) (d : Request) : Option (List PyFloat × Bool) :=
  (rawFeatures b d).map
    (fun p => (if p.2 then p.1 else applyScaler b.scaler p.1, p.2))

/-- `numpy.nansum`: sum with `nan` treated as `0`. -/
def nansum (l : List PyFloat) : PyFloat :=
  (l.map (fun x => if x = .nan then .fin 0 else x)).foldl PyFloat.add (.fin 0)

/-- The degenerate-input condition of predictor.py:149-151: vitals path and
(all-zero or non-finite features).  NOTE: in the source the `ValueError`
raised when this holds (line 152) sits inside a `try` whose handler is
`except Exception: pass` (lines 153-155), so it is swallowed and the
prediction proceeds regardless — see claim C1. -/
def noUsableSignal (used_symptoms_path : Bool) (features : List PyFloat) : Bool :=
  !used_symptoms_path &&
    ((nansum features).eqZero || !(features.all PyFloat.isFinite))

/-! ## Classifier adapter and response composition (predictor.py:157-219) -/

/-- `float(np.max(ps))` over a probability distribution; a classifier always
emits at least one class, so the `[]` case is never produced by a bundle. -/
def maxQ : List ℚ → ℚ
  | [] => 0
  | q :: qs => qs.foldl max q

/-- Round-half-to-even on rationals (the tie rule of Python `round`): with
`f = ⌊q⌋` and remainder `r = q - f ∈ [0, 1)`, the comparisons of `r` with
`1/2` are expressed on the numerator and denominator so that the function
kernel-computes: `r < 1/2 ↔ 2 num < (2 f + 1) den`. -/
def rhe (q : ℚ) : ℤ :=
  let f := ⌊q⌋
  if 2 * q.num < (2 * f + 1) * (q.den : ℤ) then f
  else if (2 * f + 1) * (q.den : ℤ) < 2 * q.num then f + 1
  else if f % 2 = 0 then f else f + 1

/-- Python `round(q, n)` on the exact rational model of a float. -/
def roundTo (n : ℕ) (q : ℚ) : ℚ :=
  Rat.divInt (rhe (qmul q (Rat.divInt (tenPow n) 1))) (tenPow n)

/-- `round(x, 4)` used for probabilities and confidence. -/
def round4 (q : ℚ) : ℚ := roundTo 4 q

/-- `round(x, 2)` used for the confidence percentage. -/
def round2 (q : ℚ) : ℚ := roundTo 2 q

/-- The comparison used to model `np.argsort` (ascending by probability,
index as tie-break, which makes the modelled sort *stable*, matching the
deterministic behaviour numpy exhibits on the inputs considered here). -/
def leIdx (ps : List ℚ) (i j : ℕ) : Bool :=
  decide (ps.getD i 0 < ps.getD j 0) ||
    (decide (ps.getD i 0 = ps.getD j 0) && decide (i ≤ j))

/-- Insert into a sorted list (ascending w.r.t. `le`). -/
def insertSorted (le : ℕ → ℕ → Bool) (x : ℕ) : List ℕ → List ℕ
  | [] => [x]
  | y :: ys => if le x y then x :: y :: ys else y :: insertSorted le x ys

/-- Insertion sort (a stable sort, used to model `np.argsort`). -/
def isort (le : ℕ → ℕ → Bool) : List ℕ → List ℕ
  | [] => []
  | x :: xs => insertSorted le x (isort le xs)

/-- `np.argsort(probabilities)`: class indices sorted by ascending
probability. -/
def argsort (ps : List ℚ) : List ℕ :=
  isort (leIdx ps) (List.range ps.length)

/-- `np.argsort(probabilities)[::-1][:k]` with `k = min(5, len(ps))`
(predictor.py:197-198). -/
def topIndices (ps : List ℚ) : List ℕ :=
  ((argsort ps).reverse).take (min 5 ps.length)

/-- The `top_k` list (predictor.py:197-202): for each selected index, the
label (`class_labels[idx]` when in range, else `str(idx)`) paired with the
probability rounded to 4 digits. -/
def topK (ps : List ℚ) (class_labels : List String) : List (String × ℚ) :=
  (topIndices ps).map
    (fun idx => (class_labels.getD idx (toString idx), round4 (ps.getD idx 0)))

/-- The class label list for `top_k` (predictor.py:188-196): classes of the
`disease` encoder, else of the `target` encoder, else the numeric ids as
strings. -/
def classLabels (e : Encoders) (n : ℕ) : List String :=
  match e.disease with
  | some enc => enc.classes
  | Option.none =>
      match e.target with
      | some enc => enc.classes
      | Option.none => (List.range n).map toString

/-- `encoder.inverse_transform([int(prediction)])[0]` (predictor.py:174-183):
list indexing guarded by the sklearn unseen-label check; the surrounding
`try/except` turns a raise into `None`. -/
def invTransform (enc : LabelEncoder) (p : ℤ) : Option String :=
  if 0 ≤ p then enc.classes.get? p.toNat else Option.none

/-- The predicted label (predictor.py:172-183): `disease` encoder first,
else `target`, else `None`. -/
def encodeLabel (e : Encoders) (p : ℤ) : Option String :=
  match e.disease with
  | some enc => invTransform enc p
  | Option.none =>
      match e.target with
      | some enc => invTransform enc p
      | Option.none => Option.none

/-- `_calculate_risk_level` (predictor.py:360-365). -/
def _calculate_risk_level (confidence : ℚ) : String :=
  if confidence ≥ mkRat 8 10 then "High"
  else if confidence ≥ mkRat 6 10 then "Medium"
  else "Low"

/-- `int(x)` on a finite float: truncation toward zero (`tdiv` of the
numerator by the denominator).  Only reached on the symptom path, where the
features are 0/1. -/
def intTrunc : PyFloat → ℤ
  | .fin q => q.num.tdiv (q.den : ℤ)
  | _ => 0

/-- Sum of the feature vector as floats (`features.sum()`). -/
def sumPF (l : List PyFloat) : PyFloat :=
  l.foldl PyFloat.add (.fin 0)

/-- The response record produced by `predict` (predictor.py:208-219),
without the environment-dependent `model_type` and `timestamp` strings. -/
structure PredictResult where
  predicted_disease : String
  disease_code : ℤ
  confidence : ℚ
  confidence_percent : ℚ
  risk_level : String
  used_symptoms_path : Bool
  matched_symptoms : ℤ
  top_k : List (String × ℚ)
deriving DecidableEq

/-- `DiseasePredictor.predict` (predictor.py:45-219).  `Option.none` marks
only the unmodelled non-numeric-vitals case of `rawFeatures`; note that the
NoUsableSignal `raise` (line 152) is swallowed by its own `except` (153-155)
and therefore contributes nothing here — the call always proceeds to the
classifier. -/
def predict (b : Bundle) (d : Request) : Option PredictResult :=
  (scaledFeatures b d).map (fun p =>
    let features := p.1
    let used_symptoms_path := p.2
    let prediction := b.model.predictClass features
    let probabilities := b.model.predictProba.map (fun f => f features)
    let confidence : ℚ :=
      match probabilities with
      | some ps => maxQ ps
      | Option.none => mkRat 85 100
    let risk_level := _calculate_risk_level confidence
    let predicted_label := encodeLabel b.label_encoders prediction
    let top_k :=
      match probabilities with
      | some ps => topK ps (classLabels b.label_encoders ps.length)
      | Option.none => []
    let matched_symptoms := if used_symptoms_path then intTrunc (sumPF features) else 0
    { predicted_disease := (predicted_label).getD (toString prediction)
      disease_code := prediction
      confidence := round4 confidence
      confidence_percent := round2 (qmul confidence 100)
      risk_level := risk_level
      used_symptoms_path := used_symptoms_path
      matched_symptoms := matched_symptoms
      top_k := top_k })

/-! ## Input validator (validators.py) -/

/-- The curated reference set `SUPPORTED_SYMPTOMS` (validators.py:3-11). -/
def SUPPORTED_SYMPTOMS : List String :=
  ["chest pain", "shortness of breath", "fatigue", "dizziness",
   "headache", "fever", "cough", "runny nose", "sore throat",
   "nausea", "vomiting", "diarrhea", "loss of appetite", "abdominal pain",
   "joint pain", "muscle pain", "body aches", "body pain", "rash", "chills",
   "congestion", "dry mouth", "weakness", "sweating", "tremor", "anxiety",
   "insomnia", "back pain", "neck pain", "shoulder pain", "arm pain",
   "leg pain", "numbness", "tingling", "itching", "bruising", "swelling"]

/-- The string entries whose normalization is non-empty and not in the
curated set (validators.py:96-101).  They are only *logged*
(validators.py:103-106) and never affect the validation outcome. -/
def unrecognizedSymptoms (xs : List PyVal) : List PyVal :=
  xs.filter (fun s =>
    match s with
    | .vstr t =>
        decide (normalize_symptom t ≠ "") &&
          !(SUPPORTED_SYMPTOMS.contains (normalize_symptom t))
    | _ => false)

/-- Numeric extraction for the range checks: `isinstance(v, (int, float))`
fails for an absent or non-numeric field. -/
def toPF : Option PyVal → Option PyFloat
  | some (.vint n) => some (.fin (n : ℚ))
  | some (.vfloat x) => some x
  | _ => Option.none

/-- `not isinstance(v,(int,float)) or v < lo or v > hi` — note that `nan`
compares false on both sides and therefore *passes* the range check, exactly
as in Python. -/
def inRange (v : Option PyVal) (lo hi : ℚ) : Bool :=
  match toPF v with
  | some x => !(x.lt (.fin lo)) && !((PyFloat.fin hi).lt x)
  | Option.none => false

/-- `gender not in [0, 1]` negated: Python `==` compares ints and floats by
value. -/
def isZeroOne : Option PyVal → Bool
  | some (.vint n) => decide (n = 0) || decide (n = 1)
  | some (.vfloat (.fin q)) => decide (q = 0) || decide (q = 1)
  | _ => false

/-- `symptoms_only` (validators.py:33-34): `symptoms` is a list, non-empty,
and its first element is a string. -/
def symptoms_only (d : Request) : Bool :=
  match d.symptoms.getD (.list []) with
  | .list (x :: _) => x.isStr
  | _ => false

/-- The vitals section of `validate_prediction_input` (validators.py:36-84):
every check is guarded by `if not symptoms_only`.  Raises (returns the
first applicable error) in source order. -/
def checkVitals (so : Bool) (d : Request) : Except String Unit :=
  if so then .ok ()
  else if d.age.isNone then .error "Missing required field: age"
  else if d.gender.isNone then .error "Missing required field: gender"
  else if d.weight.isNone then .error "Missing required field: weight"
  else if d.blood_pressure_systolic.isNone then
    .error "Missing required field: blood_pressure_systolic"
  else if d.blood_pressure_diastolic.isNone then
    .error "Missing required field: blood_pressure_diastolic"
  else if d.glucose.isNone then .error "Missing required field: glucose"
  else if d.cholesterol.isNone then .error "Missing required field: cholesterol"
  else if !inRange d.age 0 150 then
    .error "Age must be a number between 0 and 150"
  else if !isZeroOne d.gender then
    .error "Gender must be 0 (Female) or 1 (Male)"
  else if !inRange d.weight 20 300 then
    .error "Weight must be between 20 and 300 kg"
  else if !inRange d.blood_pressure_systolic 50 250 then
    .error "Systolic BP must be between 50 and 250"
  else if !inRange d.blood_pressure_diastolic 30 150 then
    .error "Diastolic BP must be between 30 and 150"
  else if !inRange d.glucose 40 400 then
    .error "Glucose must be between 40 and 400 mg/dL"
  else if !inRange d.cholesterol 50 500 then
    .error "Cholesterol must be between 50 and 500 mg/dL"
  else .ok ()

/-- The symptom section of `validate_prediction_input` (validators.py:86-106):
runs only when `symptoms` is truthy; checks list-ness, the 50-entry cap and
the per-entry type; unrecognized strings are only logged. -/
def checkSymptoms (symptoms : PyTop) : Except String Unit :=
  if symptoms.truthy then
    if !symptoms.isList then .error "Symptoms must be a list"
    else if 50 < symptoms.entries.length then .error "Maximum 50 symptoms allowed"
    else if !(symptoms.entries.all PyVal.isStrOrNum) then
      .error "Each symptom must be a string or 0/1"
    else .ok ()
  else .ok ()

/-- `validate_prediction_input` (validators.py:22-106): the vitals section,
then the symptom section. -/
def validate_prediction_input (d : Request) : Except String Unit := do
  checkVitals (symptoms_only d) d
  checkSymptoms (d.symptoms.getD (.list []))

/-- `validate_batch_input` (validators.py:108-131): list shape and size,
then each entry validated with the failing index prefixed to the message.
NOTE: imported by app.py but never called by the batch endpoint. -/
def validate_batch_input : List Request → Except String Unit :=
  go 0
where
  /-- The indexed loop of validators.py:127-131. -/
  go (i : ℕ) : List Request → Except String Unit
    | [] => .ok ()
    | r :: rs =>
        match validate_prediction_input r with
        | .error e => .error ("Prediction " ++ toString i ++ ": " ++ e)
        | .ok () => go (i + 1) rs

/-! ## Batch endpoint (app.py:94-137) -/

/-- The per-entry validation loop of `predict_batch` (app.py:122-124):
plain `validate_prediction_input`, *without* any index annotation. -/
def validateAll : List Request → Except String Unit
  | [] => .ok ()
  | r :: rs =>
      match validate_prediction_input r with
      | .error e => .error e
      | .ok () => validateAll rs

/-- The prediction loop of `predict_batch` (app.py:127-130), in input
order. -/
def predictAll (b : Bundle) : List Request → Option (List PredictResult)
  | [] => some []
  | r :: rs => do
      let x ← predict b r
      let xs ← predictAll b rs
      pure (x :: xs)

/-- The batch response (app.py:133-137): count plus predictions in input
order (timestamp omitted). -/
structure BatchResult where
  count : ℕ
  predictions : List PredictResult
deriving DecidableEq

/-- `predict_batch` (app.py:94-137) from the decoded `predictions` array on:
size cap, validate-all, then predict-all.  The JSON-shape checks of
app.py:111-117 precede this and are outside the embedding; `Option.none`
again marks only the unmodelled non-numeric-vitals case inside `predict`. -/
def predict_batch (b : Bundle) (preds : List Request) :
    Option (Except String BatchResult) :=
  if 100 < preds.length then some (.error "Maximum 100 predictions per batch")
  else
    match validateAll preds with
    | .error e => some (.error e)
    | .ok () => (predictAll b preds).map (fun rs => .ok ⟨rs.length, rs⟩)

/-! ## Concrete artifacts and requests used by witnesses and counterexamples -/

deriving instance DecidableEq for Except

/-- A minimal artifact bundle: one-entry vocabulary, constant classifier
with a degenerate probability distribution, no scaler, no encoders. -/
def bundleDemo : Bundle :=
  { model := { predictClass := fun _ => 0, predictProba := some (fun _ => [1]) }
    scaler := Option.none
    label_encoders := ⟨Option.none, Option.none⟩
    symptom_vocabulary := ["fever"] }

/-- A bundle without probability support, used where the 0.85 default is
irrelevant and evaluation should stay small. -/
def bundlePlain : Bundle :=
  { model := { predictClass := fun _ => 0, predictProba := Option.none }
    scaler := Option.none
    label_encoders := ⟨Option.none, Option.none⟩
    symptom_vocabulary := ["fever"] }

/-- The NoUsableSignal test request of the spec: one unmatched symptom, no
vitals. -/
def rqNoSignal : Request :=
  { emptyRequest with symptoms := some (.list [.vstr "qwerty_nonexistent"]) }

/-- A request with complete, in-range vitals and no symptoms. -/
def rqVitals : Request :=
  { symptoms := Option.none
    age := some (.vint 45), gender := some (.vint 1), weight := some (.vint 75)
    blood_pressure_systolic := some (.vint 130)
    blood_pressure_diastolic := some (.vint 85)
    glucose := some (.vint 110), cholesterol := some (.vint 200) }

/-- Valid vitals plus the numeric symptom entry `5`, which is neither a
string nor a 0/1 flag. -/
def rqNum5 : Request :=
  { rqVitals with symptoms := some (.list [.vint 5]) }

/-- An unmatched symptom string together with wildly out-of-range vitals
(age 9999, negative glucose). -/
def rqOutOfRange : Request :=
  { symptoms := some (.list [.vstr "qwerty_nonexistent"])
    age := some (.vint 9999), gender := some (.vint 7)
    weight := some (.vint (-3))
    blood_pressure_systolic := some (.vint 9000)
    blood_pressure_diastolic := some (.vint (-1))
    glucose := some (.vint (-50)), cholesterol := some (.vint 100000) }

/-- A symptom list consisting only of falsy entries. -/
def falsyList : List PyVal :=
  [.vstr "", .vint 0, .vfloat (.fin 0), .vnone]

/-- Valid vitals plus the all-falsy symptom list. -/
def rqFalsy : Request :=
  { rqVitals with symptoms := some (.list falsyList) }

/-! ## Canonical-form predicates used to analyse the normalizer -/

/-- Every character is in the kept class `[a-z0-9 ]`. -/
def allKeep (l : List Char) : Bool :=
  l.all isKeep

/-- No two consecutive spaces. -/
def noDoubleSpace : List Char → Bool
  | c :: d :: rest => !(c == ' ' && d == ' ') && noDoubleSpace (d :: rest)
  | _ => true

/-- The first character, if any, is not a space. -/
def noLeadSpace : List Char → Bool
  | [] => true
  | c :: _ => !(c == ' ')

/-- The last character, if any, is not a space. -/
def noTrailSpace (l : List Char) : Bool :=
  match l.getLast? with
  | some c => !(c == ' ')
  | Option.none => true

/-- A fully normalized character list: kept characters only, single inner
spaces, no boundary spaces. -/
def canonicalChars (l : List Char) : Bool :=
  allKeep l && noDoubleSpace l && noLeadSpace l && noTrailSpace l

/-- First-defined-wins choice on optional positions (used to state how the
index lookup decomposes across insertions). -/
def oor (a b : Option ℕ) : Option ℕ :=
  match a with
  | some x => some x
  | Option.none => b

/-- A symptoms-only request whose single entry is a string outside the
curated reference set. -/
def rqUnrec : Request :=
  { emptyRequest with symptoms := some (.list [.vstr "totally imaginary ailment"]) }

/-- The result `bundlePlain` produces for any vitals-path request: default
confidence 0.85 (no probability capability), risk High, no top-k. -/
def resultVitalsPlain : PredictResult :=
  ⟨"0", 0, mkRat 17 20, 85, "High", false, 0, []⟩

/-! ## Helper lemmas -/

/-- `qadd` is rational addition. -/
theorem qadd_eq (a b : ℚ) : qadd a b = a + b := by
  conv_rhs => rw [← Rat.num_divInt_den a, ← Rat.num_divInt_den b]
  rw [Rat.divInt_add_divInt _ _ (by exact_mod_cast a.den_nz) (by exact_mod_cast b.den_nz)]
  rw [qadd]

/-- `qmul` is rational multiplication. -/
theorem qmul_eq (a b : ℚ) : qmul a b = a * b := by
  conv_rhs => rw [← Rat.num_divInt_den a, ← Rat.num_divInt_den b]
  rw [Rat.divInt_mul_divInt _ _ (by exact_mod_cast a.den_nz) (by exact_mod_cast b.den_nz)]
  rw [qmul]

/-- `sumQ` is `List.sum`. -/
theorem sumQ_eq (l : List ℚ) : sumQ l = l.sum := by
  have h : ∀ (init : ℚ), l.foldl qadd init = init + l.sum := by
    induction l with
    | nil => intro init; simp [List.sum_nil]
    | cons x xs ih =>
        intro init
        simp only [List.foldl_cons, List.sum_cons, ih, qadd_eq]
        ring
  simpa using h 0

/-! ## Claim C1 -/

/-- C1: the NoUsableSignal check never rejects anything.  For the failing request the spec itself names (`symptoms = ["qwerty_nonexistent"]`, no vitals) the symptom
path matches nothing and the vitals vector is all-zero, so the degenerate
condition of predictor.py:149-151 holds — yet `predict` completes normally
and returns a prediction computed from the all-zero vector, because the
`ValueError` raised at predictor.py:152 is swallowed by the enclosing
`except Exception: pass` (predictor.py:153-155). -/
theorem C1_noUsableSignal_never_raises :
    scaledFeatures bundleDemo rqNoSignal = some (List.replicate 7 (.fin 0), false)
  ∧ noUsableSignal false (List.replicate 7 (.fin 0)) = true
  ∧ predict bundleDemo rqNoSignal =
      some ⟨"0", 0, 1, 100, "High", false, 0, [("0", 1)]⟩ := by
  decide

/-! ## Claim C2: counterexample -/

/-- C2 fails as stated: in the vocabulary `["runs", "run"]` the entry at
position 1 is the exact string `"run"`, but matching `"run"` against the
index returns position 0, because entry 0 (`"runs"`) already inserted the
suffix-stripped variant `"run"` and first-seen-wins keeps it. -/
theorem C2_counterexample :
    List.get ["runs", "run"] ⟨1, by decide⟩ = "run"
  ∧ matchSymptomStr (vocab_index ["runs", "run"]) "run" = some 0
  ∧ matchSymptomStr (vocab_index ["runs", "run"]) "run" ≠ some 1 := by
  decide

/-! ## Claim C3: counterexample -/

/-- C3 fails as stated: `_norm` maps `"a_"` to `"a "` (the underscore became
a trailing space after the strip already ran) and a second application
removes it; `normalize_symptom` maps `"a ! b"` to `"a  b"` (removing `"!"`
merged two single spaces) and a second application collapses them. -/
theorem C3_counterexample :
    _norm "a_" = "a " ∧ _norm (_norm "a_") ≠ _norm "a_"
  ∧ normalize_symptom "a ! b" = "a  b"
  ∧ normalize_symptom (normalize_symptom "a ! b") ≠ normalize_symptom "a ! b" := by
  decide

/-! ## Claim C5: counterexample -/

/-- C5 fails as stated on ties: for the two-class distribution
`[0.5, 0.5]` with no label encoder, `np.argsort` ascends as `[0, 1]` and the
`[::-1]` reversal emits class 1 before class 0 — descending class index,
where the claim requires ascending. -/
theorem C5_counterexample :
    topK [mkRat 1 2, mkRat 1 2] (classLabels ⟨Option.none, Option.none⟩ 2)
      = [("1", mkRat 1 2), ("0", mkRat 1 2)]
  ∧ topK [mkRat 1 2, mkRat 1 2] (classLabels ⟨Option.none, Option.none⟩ 2)
      ≠ [("0", mkRat 1 2), ("1", mkRat 1 2)] := by
  decide

/-! ## Claim C6 -/

/-- C6: the risk tiers are exactly the closed bands `[0.8, ∞) → High`,
`[0.6, 0.8) → Medium`, `(-∞, 0.6) → Low` — exhaustive and non-overlapping —
and the four boundary examples evaluate as the spec states. -/
theorem C6_risk_tier (c : ℚ) :
    (_calculate_risk_level c = "High" ↔ mkRat 8 10 ≤ c)
  ∧ (_calculate_risk_level c = "Medium" ↔ mkRat 6 10 ≤ c ∧ c < mkRat 8 10)
  ∧ (_calculate_risk_level c = "Low" ↔ c < mkRat 6 10)
  ∧ _calculate_risk_level (mkRat 8 10) = "High"
  ∧ _calculate_risk_level (mkRat 79999 100000) = "Medium"
  ∧ _calculate_risk_level (mkRat 6 10) = "Medium"
  ∧ _calculate_risk_level (mkRat 59999 100000) = "Low" := by
  refine ⟨?_, ?_, ?_, by decide, by decide, by decide, by decide⟩ <;>
    · have hq : (mkRat 6 10 : ℚ) < mkRat 8 10 := by decide
      unfold _calculate_risk_level
      split_ifs with h1 h2 <;> simp_all <;> linarith

/-! ## Claim C7: counterexample -/

/-- C7 fails as stated: the entry `5` is a number that is neither a string
nor a 0/1 flag, yet the request (with valid vitals) passes validation — the
per-entry check of validators.py:93 is only `isinstance(s, (int, float,
str))`. -/
theorem C7_counterexample :
    rqNum5.symptoms = some (.list [.vint 5])
  ∧ validate_prediction_input rqNum5 = .ok () := by
  decide

/-! ## Claim C8: counterexample -/

/-- C8 fails as stated: the batch endpoint reports an invalid entry with the validation message of the entry itself and no index.  The batches below fail at
index 1 and index 0 respectively, yet produce byte-identical errors, so the
error cannot indicate which index failed.  (`validate_batch_input`, which
would prefix `Prediction i:`, is imported by app.py but never called.) -/
theorem C8_counterexample :
    predict_batch bundlePlain [rqVitals, emptyRequest]
      = some (.error "Missing required field: age")
  ∧ predict_batch bundlePlain [emptyRequest]
      = some (.error "Missing required field: age")
  ∧ validate_batch_input [rqVitals, emptyRequest]
      = .error "Prediction 1: Missing required field: age" := by
  decide

/-! ## Claim C4 -/

/-- C4: the scaler is applied exactly on the vitals path.  When `symptoms`
is a list, the vocabulary is loaded and the one-hot vector is non-zero, the
one-hot vector goes through unscaled with `used_symptoms_path = true`; in
every other case the 7-element vitals vector (missing fields as 0, built by
`vitalsVec` in the fixed field order) is used, scaled when a scaler is
present.  The classifier receives exactly these features. -/
theorem C4_scaler_iff_vitals_path (b : Bundle) (d : Request) :
    (scaledFeatures b d =
      match d.symptoms with
      | some (.list xs) =>
          if b.symptom_vocabulary ≠ [] ∧
              0 < sumQ (symptomLoop (vocab_index b.symptom_vocabulary)
                b.symptom_vocabulary.length xs).1 then
            some (((symptomLoop (vocab_index b.symptom_vocabulary)
                b.symptom_vocabulary.length xs).1).map PyFloat.fin, true)
          else (vitalsVec d).map (fun v => (applyScaler b.scaler v, false))
      | _ => (vitalsVec d).map (fun v => (applyScaler b.scaler v, false)))
  ∧ (predict b d).map PredictResult.disease_code
      = (scaledFeatures b d).map (fun p => b.model.predictClass p.1) := by
  constructor
  · unfold scaledFeatures rawFeatures
    cases hd : d.symptoms with
    | none =>
        simp only [hd, Bool.and_false, Bool.false_eq_true, if_false, Option.map_map]
        rfl
    | some t =>
        cases t with
        | scalar v =>
            simp only [hd, PyTop.isList, Bool.and_false, Bool.false_eq_true, if_false,
              Option.map_map]
            rfl
        | list xs =>
            cases hv : b.symptom_vocabulary with
            | nil =>
                simp only [hv, List.isEmpty_nil, Bool.not_true, Bool.false_and,
                  Bool.false_eq_true, if_false, Option.map_map, ne_eq, not_true_eq_false,
                  false_and, hd]
                rfl
            | cons y ys =>
                simp only [hd, hv, List.isEmpty_cons, Bool.not_false, PyTop.isList,
                  Bool.and_self, if_true, Option.getD_some, PyTop.entries, ne_eq,
                  reduceCtorEq, not_false_eq_true, true_and]
                split_ifs with hs
                · simp
                · simp only [Option.map_map]
                  cases vitalsVec d <;> rfl
  · unfold predict
    cases h : scaledFeatures b d with
    | none => simp
    | some p => simp

/-! ## Claim C10 (with loop helper lemmas) -/

/-- A falsy entry leaves the loop state unchanged. -/
theorem symptomStep_falsy (m : List Char → Option ℕ)
    (st : List ℚ × List PyVal × List PyVal) (x : PyVal) (hx : x.truthy = false) :
    symptomStep m st x = st := by
  simp [symptomStep, hx]

/-- The matching fold ignores falsy entries: folding over `xs` equals
folding over `xs.filter truthy`. -/
theorem foldl_symptomStep_filter (m : List Char → Option ℕ) (xs : List PyVal) :
    ∀ st, xs.foldl (symptomStep m) st = (xs.filter PyVal.truthy).foldl (symptomStep m) st := by
  induction xs with
  | nil => intro st; rfl
  | cons x rest ih =>
      intro st
      by_cases hx : x.truthy = true
      · simp only [List.foldl_cons, List.filter_cons, hx, if_true]
        exact ih _
      · have hx' : x.truthy = false := by
          cases h : x.truthy
          · rfl
          · exact absurd h hx
        simp only [List.foldl_cons, List.filter_cons, hx', Bool.false_eq_true, if_false,
          symptomStep_falsy m st x hx']
        exact ih st

/-- If every truthy entry fails to match, the one-hot vector component of the
fold is untouched. -/
theorem foldl_symptomStep_vec_unchanged (m : List Char → Option ℕ) (xs : List PyVal)
    (h : ∀ x ∈ xs, x.truthy = true → matchSymptomStr m (pyToStr x) = Option.none) :
    ∀ st, (xs.foldl (symptomStep m) st).1 = st.1 := by
  induction xs with
  | nil => intro st; rfl
  | cons x rest ih =>
      intro st
      have hrest : ∀ y ∈ rest, y.truthy = true →
          matchSymptomStr m (pyToStr y) = Option.none := by
        intro y hy; exact h y (List.mem_cons_of_mem _ hy)
      by_cases hx : x.truthy = true
      · have hm := h x (List.mem_cons_self _ _) hx
        simp only [List.foldl_cons, symptomStep, hx, if_true, hm]
        exact ih hrest _
      · have hx' : x.truthy = false := by
          cases hh : x.truthy
          · rfl
          · exact absurd hh hx
        simp only [List.foldl_cons, symptomStep_falsy m st x hx']
        exact ih hrest st

/-- The sum of the all-zero one-hot vector is zero. -/
theorem sumQ_replicate_zero (n : ℕ) : sumQ (List.replicate n (0 : ℚ)) = 0 := by
  rw [sumQ_eq, List.sum_replicate, smul_zero]

/-- If the one-hot vector stays all-zero, `rawFeatures` falls back to the
vitals path.  Stated for any reason the loop leaves the vector untouched. -/
theorem rawFeatures_fallback (b : Bundle) (d : Request) (xs : List PyVal)
    (hsym : d.symptoms = some (.list xs))
    (hvec : (symptomLoop (vocab_index b.symptom_vocabulary)
        b.symptom_vocabulary.length xs).1 =
      List.replicate b.symptom_vocabulary.length (0 : ℚ)) :
    rawFeatures b d = (vitalsVec d).map (fun v => (v, false)) := by
  unfold rawFeatures
  cases hv : b.symptom_vocabulary with
  | nil => simp [hv]
  | cons y ys =>
      rw [hv] at hvec
      simp only [hsym, hv, List.isEmpty_cons, Bool.not_false, PyTop.isList, Bool.and_self,
        if_true, Option.getD_some, PyTop.entries, hvec, sumQ_replicate_zero, lt_self_iff_false,
        if_false]

/-- C10: falsy symptom entries (`""`, `0`, `0.0`, `None`) are skipped whole:
the loop state (one-hot vector and both diagnostic lists) is exactly that of
the truthy sublist, and a symptom list of only falsy entries leaves the
one-hot vector zero, so `rawFeatures` takes the vitals fallback. -/
theorem C10_falsy_entries_skipped (m : List Char → Option ℕ) (n : ℕ) (xs : List PyVal) :
    symptomLoop m n xs = symptomLoop m n (xs.filter PyVal.truthy)
  ∧ ∀ (b : Bundle) (d : Request), d.symptoms = some (.list xs) →
      (∀ x ∈ xs, x.truthy = false) →
      rawFeatures b d = (vitalsVec d).map (fun v => (v, false)) := by
  constructor
  · exact foldl_symptomStep_filter m xs _
  · intro b d hsym hfalsy
    refine rawFeatures_fallback b d xs hsym ?_
    have h : ∀ x ∈ xs, x.truthy = true →
        matchSymptomStr (vocab_index b.symptom_vocabulary) (pyToStr x) = Option.none := by
      intro x hx hxt
      exact absurd hxt (by simp [hfalsy x hx])
    exact foldl_symptomStep_vec_unchanged _ xs h _

/-- Witness for C10 at a concrete all-falsy list and request. -/
theorem C10_witness :
    symptomLoop (vocab_index ["fever"]) 1 falsyList
      = symptomLoop (vocab_index ["fever"]) 1 (falsyList.filter PyVal.truthy)
  ∧ rawFeatures bundlePlain rqFalsy = (vitalsVec rqFalsy).map (fun v => (v, false)) := by
  refine ⟨(C10_falsy_entries_skipped (vocab_index ["fever"]) 1 falsyList).1, ?_⟩
  exact (C10_falsy_entries_skipped (vocab_index ["fever"]) 1 falsyList).2
    bundlePlain rqFalsy (by decide) (by decide)

/-! ## Claim C9 -/

/-- C9: when `symptoms` is a non-empty list whose first element is a string,
none of the seven vitals type/range checks run — the request passes
validation with arbitrarily out-of-range vitals (the only remaining checks
are the symptom-shape ones) — and when no symptom matches the vocabulary,
the predictor fallback builds the vitals vector from those unvalidated
values, scales it if a scaler exists, and feeds it to the classifier. -/
theorem C9_unvalidated_vitals_reach_classifier
    (b : Bundle) (d : Request) (s : String) (rest : List PyVal) (v : List PyFloat)
    (hsym : d.symptoms = some (.list (.vstr s :: rest)))
    (hlen : (PyVal.vstr s :: rest).length ≤ 50)
    (htypes : ∀ x ∈ (PyVal.vstr s :: rest), x.isStrOrNum = true)
    (hnomatch : ∀ x ∈ (PyVal.vstr s :: rest), x.truthy = true →
        matchSymptomStr (vocab_index b.symptom_vocabulary) (pyToStr x) = Option.none)
    (hv : vitalsVec d = some v) :
    validate_prediction_input d = .ok ()
  ∧ scaledFeatures b d = some (applyScaler b.scaler v, false)
  ∧ (predict b d).map PredictResult.disease_code
      = some (b.model.predictClass (applyScaler b.scaler v)) := by
  have hso : symptoms_only d = true := by
    unfold symptoms_only
    rw [hsym]
    rfl
  have hval : validate_prediction_input d = .ok () := by
    unfold validate_prediction_input
    rw [hso, hsym]
    show Except.bind (checkVitals true d) (fun _ => checkSymptoms (.list (.vstr s :: rest)))
        = .ok ()
    have hcv : checkVitals true d = .ok () := rfl
    rw [hcv]
    show checkSymptoms (.list (.vstr s :: rest)) = .ok ()
    unfold checkSymptoms
    have ht : (PyTop.list (PyVal.vstr s :: rest)).truthy = true := by
      simp [PyTop.truthy]
    rw [ht]
    simp only [if_true, PyTop.isList, Bool.not_true, Bool.false_eq_true, if_false,
      PyTop.entries]
    rw [if_neg (by omega)]
    have hall : ((PyVal.vstr s :: rest).all PyVal.isStrOrNum) = true :=
      List.all_eq_true.mpr htypes
    rw [if_neg (by simp [hall])]
  have hraw : rawFeatures b d = (vitalsVec d).map (fun x => (x, false)) := by
    refine rawFeatures_fallback b d _ hsym ?_
    exact foldl_symptomStep_vec_unchanged _ _ hnomatch _
  have hscaled : scaledFeatures b d = some (applyScaler b.scaler v, false) := by
    unfold scaledFeatures
    rw [hraw, hv]
    rfl
  refine ⟨hval, hscaled, ?_⟩
  unfold predict
  rw [hscaled]
  rfl

/-- Witness for C9: a request with age 9999, gender 7, negative weight,
glucose −50 and an unmatched symptom string passes validation and reaches
the classifier with exactly those values. -/
theorem C9_witness :
    validate_prediction_input rqOutOfRange = .ok ()
  ∧ scaledFeatures bundlePlain rqOutOfRange =
      some ([.fin 9999, .fin 7, .fin (-3), .fin 9000, .fin (-1), .fin (-50),
        .fin 100000], false)
  ∧ (predict bundlePlain rqOutOfRange).map PredictResult.disease_code =
      some (bundlePlain.model.predictClass
        [.fin 9999, .fin 7, .fin (-3), .fin 9000, .fin (-1), .fin (-50), .fin 100000]) := by
  have h := C9_unvalidated_vitals_reach_classifier bundlePlain rqOutOfRange
    "qwerty_nonexistent" []
    [.fin 9999, .fin 7, .fin (-3), .fin 9000, .fin (-1), .fin (-50), .fin 100000]
    (by decide) (by decide) (by decide) (by decide) (by decide)
  exact h

/-! ## Claim C7: amended -/

/-- C7 amended: with `symptoms` a non-empty list, a passing validation
implies the list is capped at 50 and every entry is a string **or a number**
(any `int`/`float`, not only 0/1 — see `C7_counterexample`); conversely a
symptoms-only request meeting exactly those shape constraints always
validates, regardless of whether its strings are in the curated reference
set (those only produce a log warning, validators.py:96-106). -/
theorem C7_symptom_list_checks (d : Request) (xs : List PyVal)
    (hsym : d.symptoms = some (.list xs)) (hne : xs ≠ []) :
    (validate_prediction_input d = .ok () →
      xs.length ≤ 50 ∧ ∀ x ∈ xs, x.isStrOrNum = true)
  ∧ ((xs.headD .vnone).isStr = true → xs.length ≤ 50 →
      (∀ x ∈ xs, x.isStrOrNum = true) → validate_prediction_input d = .ok ()) := by
  constructor
  · intro hok
    have hcs : checkSymptoms (PyTop.list xs) = .ok () := by
      unfold validate_prediction_input at hok
      rw [hsym] at hok
      cases hcv : checkVitals (symptoms_only d) d with
      | error e =>
          rw [hcv] at hok
          exact Except.noConfusion
            (show (Except.error e : Except String Unit) = Except.ok () from hok)
      | ok u =>
          rw [hcv] at hok
          cases u
          exact hok
    unfold checkSymptoms at hcs
    have ht : (PyTop.list xs).truthy = true := by simp [PyTop.truthy, hne]
    rw [ht] at hcs
    simp only [if_true, PyTop.isList, Bool.not_true, Bool.false_eq_true, if_false,
      PyTop.entries] at hcs
    by_cases h50 : 50 < xs.length
    · rw [if_pos h50] at hcs
      exact absurd hcs (by simp)
    · rw [if_neg h50] at hcs
      refine ⟨by omega, ?_⟩
      by_cases hall : xs.all PyVal.isStrOrNum = true
      · exact List.all_eq_true.mp hall
      · rw [if_pos (by simp [hall])] at hcs
        exact absurd hcs (by simp)
  · intro hhead hlen htypes
    obtain ⟨x, rest, rfl⟩ : ∃ x rest, xs = x :: rest := by
      cases xs with
      | nil => exact absurd rfl hne
      | cons x rest => exact ⟨x, rest, rfl⟩
    have hso : symptoms_only d = true := by
      unfold symptoms_only
      rw [hsym]
      simpa using hhead
    unfold validate_prediction_input
    rw [hso, hsym]
    show Except.bind (checkVitals true d) (fun _ => checkSymptoms (.list (x :: rest)))
        = .ok ()
    have hcv : checkVitals true d = .ok () := rfl
    rw [hcv]
    show checkSymptoms (.list (x :: rest)) = .ok ()
    unfold checkSymptoms
    have ht : (PyTop.list (x :: rest)).truthy = true := by simp [PyTop.truthy]
    rw [ht]
    simp only [if_true, PyTop.isList, Bool.not_true, Bool.false_eq_true, if_false,
      PyTop.entries]
    rw [if_neg (by omega)]
    have hall : ((x :: rest).all PyVal.isStrOrNum) = true := List.all_eq_true.mpr htypes
    rw [if_neg (by simp [hall])]

/-- Witness for C7 at a request whose single symptom string is not in the
curated set: it is flagged as unrecognized, yet validation passes. -/
theorem C7_witness :
    unrecognizedSymptoms [.vstr "totally imaginary ailment"]
      = [.vstr "totally imaginary ailment"]
  ∧ validate_prediction_input rqUnrec = .ok () := by
  refine ⟨by decide, ?_⟩
  exact (C7_symptom_list_checks rqUnrec [.vstr "totally imaginary ailment"]
    (by decide) (by decide)).2 (by decide) (by decide) (by decide)

/-! ## Claim C8: amended -/

/-- The batch prediction loop preserves length and input order. -/
theorem predictAll_spec (b : Bundle) :
    ∀ (preds : List Request) (rs : List PredictResult),
      predictAll b preds = some rs →
      rs.length = preds.length ∧ ∀ i, rs.get? i = (preds.get? i).bind (predict b) := by
  intro preds
  induction preds with
  | nil =>
      intro rs h
      have hrs : rs = [] := by
        have : (some [] : Option (List PredictResult)) = some rs := by
          rw [← h]; rfl
        exact (Option.some_inj.mp this).symm
      subst hrs
      exact ⟨rfl, fun i => by cases i <;> rfl⟩
  | cons r rest ih =>
      intro rs h
      cases hp : predict b r with
      | none =>
          exfalso
          unfold predictAll at h
          rw [hp] at h
          exact Option.noConfusion h
      | some x =>
          cases hq : predictAll b rest with
          | none =>
              exfalso
              unfold predictAll at h
              rw [hp, hq] at h
              exact Option.noConfusion h
          | some xs =>
              have hrs : rs = x :: xs := by
                unfold predictAll at h
                rw [hp, hq] at h
                exact (Option.some_inj.mp h).symm
              subst hrs
              obtain ⟨hlen, hget⟩ := ih xs hq
              refine ⟨by simp [hlen], ?_⟩
              intro i
              cases i with
              | zero => simp [hp]
              | succ j => simpa using hget j

/-- C8 amended: a batch of at most 100 entries with one invalid entry is
rejected whole — but with the validation message of the first failing entry,
which carries no index (see `C8_counterexample`); a batch of valid entries
yields the predictions in exactly the submitted order plus a count. -/
theorem C8_batch_order_and_rejection (b : Bundle) (preds : List Request)
    (h100 : preds.length ≤ 100) :
    (∀ e, validateAll preds = .error e → predict_batch b preds = some (.error e))
  ∧ (validateAll preds = .ok () → ∀ rs, predictAll b preds = some rs →
      predict_batch b preds = some (.ok ⟨rs.length, rs⟩)
      ∧ rs.length = preds.length
      ∧ ∀ i, rs.get? i = (preds.get? i).bind (predict b)) := by
  constructor
  · intro e he
    unfold predict_batch
    rw [if_neg (by omega), he]
  · intro hv rs hrs
    obtain ⟨hlen, hget⟩ := predictAll_spec b preds rs hrs
    refine ⟨?_, hlen, hget⟩
    unfold predict_batch
    rw [if_neg (by omega), hv, hrs]
    rfl

/-- Witness for C8 at the scenario the spec tests: three valid requests come
back in submitted order with count 3. -/
theorem C8_witness :
    predict_batch bundlePlain [rqVitals, rqVitals, rqVitals] =
      some (.ok ⟨3, [resultVitalsPlain, resultVitalsPlain, resultVitalsPlain]⟩)
  ∧ ([resultVitalsPlain, resultVitalsPlain, resultVitalsPlain] :
      List PredictResult).length = [rqVitals, rqVitals, rqVitals].length := by
  have h := (C8_batch_order_and_rejection bundlePlain [rqVitals, rqVitals, rqVitals]
    (by decide)).2 (by decide)
    [resultVitalsPlain, resultVitalsPlain, resultVitalsPlain] (by decide)
  exact ⟨h.1, h.2.1⟩

/-! ## Claim C2: amended (index characterization) -/

/-- `oor a none = a`. -/
theorem oor_none (a : Option ℕ) : oor a Option.none = a := by
  cases a <;> rfl

/-- `oor` is associative. -/
theorem oor_assoc (a b c : Option ℕ) : oor (oor a b) c = oor a (oor b c) := by
  cases a <;> rfl

/-- Inserting the variants of one entry adds bindings only for its variant
keys, and never overrides an existing binding. -/
theorem insertAll_lookup (i : ℕ) (q : List Char) :
    ∀ (vs : List (List Char)) (m : List Char → Option ℕ),
      insertAll m vs i q =
        oor (m q) (if containsL vs q then some i else Option.none) := by
  intro vs
  induction vs with
  | nil =>
      intro m
      simp only [insertAll, List.foldl_nil, containsL, List.any_nil, Bool.false_eq_true,
        if_false, oor_none]
  | cons v vs ih =>
      intro m
      have hstep : insertAll m (v :: vs) i = insertAll (insertIfAbsent m v i) vs i := rfl
      rw [hstep, ih]
      by_cases hqv : q = v
      · subst hqv
        have h1 : insertIfAbsent m q i q = some ((m q).getD i) := by
          unfold insertIfAbsent
          rw [if_pos rfl]
        rw [h1]
        have h2 : containsL (q :: vs) q = true := by
          simp [containsL]
        rw [if_pos h2]
        cases m q <;> rfl
      · have h1 : insertIfAbsent m v i q = m q := by
          unfold insertIfAbsent
          rw [if_neg hqv]
        rw [h1]
        have h2 : containsL (v :: vs) q = containsL vs q := by
          simp only [containsL, List.any_cons]
          have : decide (v = q) = false := by
            simp only [decide_eq_false_iff_not]
            intro hh
            exact hqv hh.symm
          rw [this, Bool.false_or]
        rw [h2]

/-- The running index loop looks up as: an earlier binding, or else the
first remaining entry whose variants generate the key, offset by `i`. -/
theorem vocab_index_aux_lookup (q : List Char) :
    ∀ (rest : List String) (i : ℕ) (m : List Char → Option ℕ),
      vocab_index_aux i rest m q =
        oor (m q)
          ((firstMatchIdx (fun s => containsL (_variants (normChars s)) q) rest).map
            (· + i)) := by
  intro rest
  induction rest with
  | nil =>
      intro i m
      show m q = oor (m q) (Option.map (· + i) Option.none)
      cases m q <;> rfl
  | cons s rest ih =>
      intro i m
      have hstep : vocab_index_aux i (s :: rest) m =
          vocab_index_aux (i + 1) rest (insertAll m (_variants (normChars s)) i) := rfl
      rw [hstep, ih, insertAll_lookup, oor_assoc]
      congr 1
      by_cases hps : containsL (_variants (normChars s)) q = true
      · rw [if_pos hps]
        have hfm : firstMatchIdx (fun t => containsL (_variants (normChars t)) q) (s :: rest)
            = some 0 := by
          simp only [firstMatchIdx, hps, if_true]
        rw [hfm]
        show some i = some (0 + i)
        congr 1
        omega
      · have hps' : containsL (_variants (normChars s)) q = false := by
          cases hh : containsL (_variants (normChars s)) q
          · rfl
          · exact absurd hh hps
        rw [if_neg (by simp [hps'])]
        have hfm : firstMatchIdx (fun t => containsL (_variants (normChars t)) q) (s :: rest)
            = (firstMatchIdx (fun t => containsL (_variants (normChars t)) q) rest).map
                (· + 1) := by
          simp only [firstMatchIdx, hps', Bool.false_eq_true, if_false]
        rw [hfm]
        cases firstMatchIdx (fun t => containsL (_variants (normChars t)) q) rest with
        | none => rfl
        | some j =>
            show some (j + (i + 1)) = some (j + 1 + i)
            congr 1
            omega

/-- The built index maps a key to the position of the first vocabulary entry
whose variant set generates the key. -/
theorem vocab_index_lookup (V : List String) (q : List Char) :
    vocab_index V q =
      firstMatchIdx (fun s => containsL (_variants (normChars s)) q) V := by
  unfold vocab_index
  rw [vocab_index_aux_lookup]
  simp only [oor]
  cases firstMatchIdx (fun s => containsL (_variants (normChars s)) q) V with
  | none => rfl
  | some j => simp

/-- What a successful `firstMatchIdx` means: the position is in range, its
entry satisfies the predicate, and no earlier entry does. -/
theorem firstMatchIdx_spec (p : String → Bool) :
    ∀ (L : List String) (j : ℕ), firstMatchIdx p L = some j →
      ∃ hj : j < L.length, p (L.get ⟨j, hj⟩) = true
        ∧ ∀ j' (hj' : j' < L.length), j' < j → p (L.get ⟨j', hj'⟩) = false := by
  intro L
  induction L with
  | nil => intro j h; exact absurd h (by simp [firstMatchIdx])
  | cons s rest ih =>
      intro j h
      by_cases hps : p s = true
      · have hj : j = 0 := by
          simp only [firstMatchIdx, hps, if_true] at h
          exact (Option.some_inj.mp h).symm
        subst hj
        exact ⟨by simp, hps, fun j' hj' hlt => absurd hlt (by omega)⟩
      · have hps' : p s = false := by
          cases hh : p s
          · rfl
          · exact absurd hh hps
        simp only [firstMatchIdx, hps', Bool.false_eq_true, if_false] at h
        cases hr : firstMatchIdx p rest with
        | none => rw [hr] at h; exact absurd h (by simp)
        | some j0 =>
            rw [hr] at h
            have hj : j = j0 + 1 := by
              have h' : some (j0 + 1) = some j := h
              exact (Option.some_inj.mp h').symm
            subst hj
            obtain ⟨hb, hpj, hearlier⟩ := ih j0 hr
            refine ⟨Nat.succ_lt_succ hb, hpj, ?_⟩
            intro j' hj' hlt
            cases j' with
            | zero => exact hps'
            | succ k =>
                have hk : k < rest.length := by simpa using hj'
                exact hearlier k hk (by omega)

/-- If some entry satisfies the predicate, `firstMatchIdx` succeeds at a
position no later than it. -/
theorem firstMatchIdx_le (p : String → Bool) :
    ∀ (L : List String) (i : ℕ) (hi : i < L.length), p (L.get ⟨i, hi⟩) = true →
      ∃ j, firstMatchIdx p L = some j ∧ j ≤ i := by
  intro L
  induction L with
  | nil => intro i hi; exact absurd hi (by simp)
  | cons s rest ih =>
      intro i hi hp
      by_cases hps : p s = true
      · exact ⟨0, by simp [firstMatchIdx, hps], by omega⟩
      · have hps' : p s = false := by
          cases hh : p s
          · rfl
          · exact absurd hh hps
        cases i with
        | zero => exact absurd (by simpa using hp) (by simp [hps'])
        | succ k =>
            have hk : k < rest.length := by simpa using hi
            obtain ⟨j0, hj0, hle⟩ := ih k hk (by simpa using hp)
            exact ⟨j0 + 1, by simp [firstMatchIdx, hps', hj0], by omega⟩

/-- A key bound in the index is matched directly by the head variant. -/
theorem findHit_of_lookup (m : List Char → Option ℕ) (key : List Char) (j : ℕ)
    (h : m key = some j) : findHit m (_variants key) = some j := by
  have hv : _variants key = key :: ((if endsWithL key ['i', 'n', 'g']
      then [dropLastN key 3] else []) ++
      (if endsWithL key ['e', 'd'] then [dropLastN key 2] else []) ++
      (if endsWithL key ['s'] then [dropLastN key 1] else [])) := rfl
  rw [hv]
  unfold findHit
  rw [h]

/-- Every variant list contains its base string. -/
theorem containsL_variants_self (key : List Char) :
    containsL (_variants key) key = true := by
  have hv : _variants key = key :: ((if endsWithL key ['i', 'n', 'g']
      then [dropLastN key 3] else []) ++
      (if endsWithL key ['e', 'd'] then [dropLastN key 2] else []) ++
      (if endsWithL key ['s'] then [dropLastN key 1] else [])) := rfl
  rw [hv]
  simp [containsL]

/-- C2 amended: matching the exact string `V[i]` against the index built
from `V` returns `some j` where `j` is the *first* position whose variant
set generates `norm(V[i])`; in particular `j ≤ i`, and `j = i` exactly when
the variants of no earlier entry collide with `norm(V[i])` (first-seen-wins, so
equality can fail — see `C2_counterexample`). -/
theorem C2_exact_match_first_generator (V : List String) (i : ℕ) (h : i < V.length) :
    ∃ j, ∃ hj : j < V.length,
      matchSymptomStr (vocab_index V) (V.get ⟨i, h⟩) = some j
      ∧ j ≤ i
      ∧ containsL (_variants (normChars (V.get ⟨j, hj⟩))) (normChars (V.get ⟨i, h⟩)) = true
      ∧ ∀ j' (hj' : j' < V.length), j' < j →
          containsL (_variants (normChars (V.get ⟨j', hj'⟩)))
            (normChars (V.get ⟨i, h⟩)) = false := by
  set key := normChars (V.get ⟨i, h⟩) with hkey
  have hp : containsL (_variants (normChars (V.get ⟨i, h⟩))) key = true :=
    containsL_variants_self key
  obtain ⟨j, hfmi, hle⟩ := firstMatchIdx_le
    (fun s => containsL (_variants (normChars s)) key) V i h hp
  have hlook : vocab_index V key = some j := by
    rw [vocab_index_lookup, hfmi]
  obtain ⟨hj, hpj, hearlier⟩ := firstMatchIdx_spec _ V j hfmi
  refine ⟨j, hj, ?_, hle, hpj, hearlier⟩
  unfold matchSymptomStr
  exact findHit_of_lookup _ _ _ hlook

/-- Witness for C2 amended at the colliding vocabulary `["runs", "run"]`,
position 1: the match lands on position 0, the first generator of `"run"`. -/
theorem C2_witness :
    ∃ j, ∃ hj : j < (["runs", "run"] : List String).length,
      matchSymptomStr (vocab_index ["runs", "run"])
          (List.get ["runs", "run"] ⟨1, by decide⟩) = some j
      ∧ j ≤ 1
      ∧ containsL (_variants (normChars (List.get ["runs", "run"] ⟨j, hj⟩)))
          (normChars (List.get ["runs", "run"] ⟨1, by decide⟩)) = true
      ∧ ∀ j' (hj' : j' < (["runs", "run"] : List String).length), j' < j →
          containsL (_variants (normChars (List.get ["runs", "run"] ⟨j', hj'⟩)))
            (normChars (List.get ["runs", "run"] ⟨1, by decide⟩)) = false :=
  C2_exact_match_first_generator ["runs", "run"] 1 (by decide)

/-! ## Claim C5: amended (top-k ordering) -/

/-- The argsort comparison is total. -/
theorem leIdx_total (ps : List ℚ) (a b : ℕ) :
    leIdx ps a b = true ∨ leIdx ps b a = true := by
  unfold leIdx
  simp only [Bool.or_eq_true, Bool.and_eq_true, decide_eq_true_eq]
  rcases lt_trichotomy (ps.getD a 0) (ps.getD b 0) with h | h | h
  · exact Or.inl (Or.inl h)
  · rcases Nat.le_total a b with hab | hab
    · exact Or.inl (Or.inr ⟨h, hab⟩)
    · exact Or.inr (Or.inr ⟨h.symm, hab⟩)
  · exact Or.inr (Or.inl h)

/-- The argsort comparison is transitive. -/
theorem leIdx_trans (ps : List ℚ) (a b c : ℕ) :
    leIdx ps a b = true → leIdx ps b c = true → leIdx ps a c = true := by
  unfold leIdx
  simp only [Bool.or_eq_true, Bool.and_eq_true, decide_eq_true_eq]
  rintro (hab | ⟨hab, hab2⟩) (hbc | ⟨hbc, hbc2⟩)
  · exact Or.inl (lt_trans hab hbc)
  · exact Or.inl (lt_of_lt_of_le hab (le_of_eq hbc))
  · exact Or.inl (lt_of_le_of_lt (le_of_eq hab) hbc)
  · exact Or.inr ⟨hab.trans hbc, le_trans hab2 hbc2⟩

/-- Membership through `insertSorted`. -/
theorem mem_insertSorted (le : ℕ → ℕ → Bool) (a x : ℕ) :
    ∀ l : List ℕ, x ∈ insertSorted le a l ↔ x = a ∨ x ∈ l := by
  intro l
  induction l with
  | nil => simp [insertSorted]
  | cons y ys ih =>
      unfold insertSorted
      by_cases hle : le a y = true
      · rw [if_pos hle]
        simp only [List.mem_cons]
      · rw [if_neg hle]
        simp only [List.mem_cons, ih]
        tauto

/-- `insertSorted` preserves sortedness for a total transitive comparison. -/
theorem pairwise_insertSorted (le : ℕ → ℕ → Bool)
    (htot : ∀ a b, le a b = true ∨ le b a = true)
    (htrans : ∀ a b c, le a b = true → le b c = true → le a c = true) (a : ℕ) :
    ∀ l : List ℕ, l.Pairwise (fun x y => le x y = true) →
      (insertSorted le a l).Pairwise (fun x y => le x y = true) := by
  intro l
  induction l with
  | nil => intro _; simp [insertSorted]
  | cons y ys ih =>
      intro hp
      rw [List.pairwise_cons] at hp
      obtain ⟨hy, hys⟩ := hp
      unfold insertSorted
      by_cases hle : le a y = true
      · rw [if_pos hle]
        rw [List.pairwise_cons]
        refine ⟨?_, List.pairwise_cons.mpr ⟨hy, hys⟩⟩
        intro z hz
        rcases List.mem_cons.mp hz with rfl | hz'
        · exact hle
        · exact htrans a y z hle (hy z hz')
      · rw [if_neg hle]
        rw [List.pairwise_cons]
        constructor
        · intro z hz
          rcases (mem_insertSorted le a z ys).mp hz with rfl | hz'
          · rcases htot z y with h | h
            · exact absurd h hle
            · exact h
          · exact hy z hz'
        · exact ih hys

/-- `insertSorted` is a permutation of consing. -/
theorem insertSorted_perm (le : ℕ → ℕ → Bool) (a : ℕ) :
    ∀ l : List ℕ, (insertSorted le a l).Perm (a :: l) := by
  intro l
  induction l with
  | nil => simp [insertSorted]
  | cons y ys ih =>
      unfold insertSorted
      by_cases hle : le a y = true
      · rw [if_pos hle]
      · rw [if_neg hle]
        exact List.Perm.trans (List.Perm.cons y ih) (List.Perm.swap a y ys)

/-- `isort` sorts: its output is pairwise-ordered. -/
theorem isort_pairwise (le : ℕ → ℕ → Bool)
    (htot : ∀ a b, le a b = true ∨ le b a = true)
    (htrans : ∀ a b c, le a b = true → le b c = true → le a c = true) :
    ∀ l : List ℕ, (isort le l).Pairwise (fun x y => le x y = true) := by
  intro l
  induction l with
  | nil => simp [isort]
  | cons x xs ih => exact pairwise_insertSorted le htot htrans x _ ih

/-- `isort` permutes its input. -/
theorem isort_perm (le : ℕ → ℕ → Bool) :
    ∀ l : List ℕ, (isort le l).Perm l := by
  intro l
  induction l with
  | nil => simp [isort]
  | cons x xs ih =>
      exact List.Perm.trans (insertSorted_perm le x (isort le xs)) (List.Perm.cons x ih)

/-- C5 amended: `top_k` has exactly `min 5 n` entries, pairs each selected
class index with its label (encoder classes, else the id as string) and its
probability rounded to 4 places, and is sorted by strictly descending
(probability, class index) — i.e. descending probability with ties broken by
*descending* original class index (the `[::-1]` reversal of the ascending
argsort; the ascending tie order of the claim is refuted by
`C5_counterexample`). -/
theorem C5_topk_ranking (ps : List ℚ) (labels : List String) :
    topK ps labels = (topIndices ps).map
      (fun idx => (labels.getD idx (toString idx), round4 (ps.getD idx 0)))
  ∧ (topIndices ps).length = min 5 ps.length
  ∧ (topIndices ps).Pairwise
      (fun a b => ps.getD b 0 < ps.getD a 0 ∨ (ps.getD a 0 = ps.getD b 0 ∧ b < a)) := by
  refine ⟨rfl, ?_, ?_⟩
  · unfold topIndices argsort
    have hlen : (isort (leIdx ps) (List.range ps.length)).length = ps.length := by
      rw [(isort_perm _ _).length_eq, List.length_range]
    rw [List.length_take, List.length_reverse, hlen]
    omega
  · have hpair : (isort (leIdx ps) (List.range ps.length)).Pairwise
        (fun x y => leIdx ps x y = true) :=
      isort_pairwise _ (leIdx_total ps) (leIdx_trans ps) _
    have hnd : (isort (leIdx ps) (List.range ps.length)).Nodup :=
      ((isort_perm _ _).nodup_iff).mpr (List.nodup_range _)
    have hpairR : ((isort (leIdx ps) (List.range ps.length)).reverse).Pairwise
        (fun a b => leIdx ps b a = true) :=
      List.pairwise_reverse.mpr hpair
    have hndR : ((isort (leIdx ps) (List.range ps.length)).reverse).Pairwise
        (fun a b => a ≠ b) :=
      List.nodup_reverse.mpr hnd
    have hcomb := hpairR.and hndR
    have htake : (topIndices ps).Pairwise
        (fun a b => leIdx ps b a = true ∧ a ≠ b) :=
      List.Pairwise.sublist (List.take_sublist _ _) hcomb
    refine htake.imp ?_
    intro a b h
    obtain ⟨hle, hne⟩ := h
    have hle' : ps.getD b 0 < ps.getD a 0 ∨ (ps.getD b 0 = ps.getD a 0 ∧ b ≤ a) := by
      have := hle
      unfold leIdx at this
      simpa only [Bool.or_eq_true, Bool.and_eq_true, decide_eq_true_eq] using this
    rcases hle' with h1 | ⟨h1, h2⟩
    · exact Or.inl h1
    · exact Or.inr ⟨h1.symm, lt_of_le_of_ne h2 (fun hh => hne hh.symm)⟩

/-! ## Claim C3: amended (normalizer analysis) -/

/-- Kept characters are never uppercase, so `toLower` fixes them. -/
theorem toLower_of_isKeep (c : Char) (h : isKeep c = true) : Char.toLower c = c := by
  have hk : ((97 ≤ c.toNat ∧ c.toNat ≤ 122) ∨ (48 ≤ c.toNat ∧ c.toNat ≤ 57)) ∨
      c.toNat = 32 := by
    have := h
    unfold isKeep at this
    simpa only [Bool.or_eq_true, Bool.and_eq_true, decide_eq_true_eq, beq_iff_eq,
      Nat.beq_eq_true_eq] using this
  unfold Char.toLower
  rw [if_neg]
  rcases hk with (⟨h1, h2⟩ | ⟨h1, h2⟩) | h1 <;> omega

/-- On a kept character, being whitespace is being the space character. -/
theorem isWs_of_isKeep (c : Char) (h : isKeep c = true) : isWs c = (c == ' ') := by
  have hne : ∀ d : Char, isKeep d = false → (c == d) = false := by
    intro d hd
    cases hb : c == d with
    | false => rfl
    | true =>
        exfalso
        have : c = d := beq_iff_eq.mp hb
        rw [this] at h
        rw [h] at hd
        exact Bool.noConfusion hd
  unfold isWs
  rw [hne '\t' (by decide), hne '\n' (by decide), hne '\x0d' (by decide),
    hne '\x0b' (by decide), hne '\x0c' (by decide)]
  cases c == ' ' <;> rfl

/-- `toSpace` fixes kept characters. -/
theorem toSpace_of_isKeep (c : Char) (h : isKeep c = true) : toSpace c = c := by
  unfold toSpace
  by_cases hsp : c = ' '
  · subst hsp
    rw [if_pos (by decide)]
  · have h1 : isWs c = false := by
      rw [isWs_of_isKeep c h]
      cases hb : c == ' ' with
      | false => rfl
      | true => exact absurd (beq_iff_eq.mp hb) hsp
    have h2 : (c == '_') = false := by
      cases hb : c == '_' with
      | false => rfl
      | true =>
          exfalso
          have : c = '_' := beq_iff_eq.mp hb
          rw [this] at h
          exact Bool.noConfusion h
    rw [if_neg (by simp [h1, h2])]

/-- A kept character other than the space is not whitespace. -/
theorem not_isWs_of_isKeep_ne_space (c : Char) (h : isKeep c = true) (hsp : ¬c = ' ') :
    isWs c = false := by
  rw [isWs_of_isKeep c h]
  cases hb : c == ' ' with
  | false => rfl
  | true => exact absurd (beq_iff_eq.mp hb) hsp

/-- `map Char.toLower` fixes all-kept lists. -/
theorem map_toLower_of_allKeep (l : List Char) (h : allKeep l = true) :
    l.map Char.toLower = l := by
  induction l with
  | nil => rfl
  | cons c t ih =>
      have hc : isKeep c = true := by
        have := List.all_eq_true.mp h c (List.mem_cons_self c t)
        simpa using this
      have ht : allKeep t = true := by
        refine List.all_eq_true.mpr ?_
        intro x hx
        exact List.all_eq_true.mp h x (List.mem_cons_of_mem c hx)
      simp only [List.map_cons, toLower_of_isKeep c hc, ih ht]

/-- `map toSpace` fixes all-kept lists. -/
theorem map_toSpace_of_allKeep (l : List Char) (h : allKeep l = true) :
    l.map toSpace = l := by
  induction l with
  | nil => rfl
  | cons c t ih =>
      have hc : isKeep c = true := by
        have := List.all_eq_true.mp h c (List.mem_cons_self c t)
        simpa using this
      have ht : allKeep t = true := by
        refine List.all_eq_true.mpr ?_
        intro x hx
        exact List.all_eq_true.mp h x (List.mem_cons_of_mem c hx)
      simp only [List.map_cons, toSpace_of_isKeep c hc, ih ht]

/-- `filter isKeep` fixes all-kept lists. -/
theorem filter_isKeep_of_allKeep (l : List Char) (h : allKeep l = true) :
    l.filter isKeep = l := by
  induction l with
  | nil => rfl
  | cons c t ih =>
      have hc : isKeep c = true := by
        have := List.all_eq_true.mp h c (List.mem_cons_self c t)
        simpa using this
      have ht : allKeep t = true := by
        refine List.all_eq_true.mpr ?_
        intro x hx
        exact List.all_eq_true.mp h x (List.mem_cons_of_mem c hx)
      simp only [List.filter_cons, hc, if_true, ih ht]

/-- `dropWhile` keeps a suffix: some prefix completes it to the input. -/
theorem dropWhile_suffix_exists (p : Char → Bool) :
    ∀ l : List Char, ∃ u, u ++ l.dropWhile p = l := by
  intro l
  induction l with
  | nil => exact ⟨[], rfl⟩
  | cons c t ih =>
      by_cases hc : p c = true
      · obtain ⟨u, hu⟩ := ih
        refine ⟨c :: u, ?_⟩
        rw [List.dropWhile_cons, if_pos hc]
        simpa using hu
      · refine ⟨[], ?_⟩
        rw [List.dropWhile_cons, if_neg hc]
        rfl

/-- Members of `dropWhile p l` are members of `l`. -/
theorem mem_of_mem_dropWhileL (p : Char → Bool) (l : List Char) (a : Char)
    (h : a ∈ l.dropWhile p) : a ∈ l := by
  obtain ⟨u, hu⟩ := dropWhile_suffix_exists p l
  rw [← hu]
  exact List.mem_append_right u h

/-- The head of `dropWhile p l`, when it exists, fails `p`. -/
theorem head_dropWhile_false (p : Char → Bool) :
    ∀ (l : List Char) (c : Char) (t : List Char), l.dropWhile p = c :: t → p c = false := by
  intro l
  induction l with
  | nil => intro c t h; exact absurd h (by simp)
  | cons d u ih =>
      intro c t h
      by_cases hd : p d = true
      · rw [List.dropWhile_cons, if_pos hd] at h
        exact ih c t h
      · rw [List.dropWhile_cons, if_neg hd] at h
        have hc : d = c := (List.cons_eq_cons.mp h).1
        rw [← hc]
        cases hb : p d with
        | false => rfl
        | true => exact absurd hb hd

/-- `trimR` is a prefix of its input. -/
theorem trimR_prefix_exists (l : List Char) : ∃ u, trimR l ++ u = l := by
  obtain ⟨v, hv⟩ := dropWhile_suffix_exists isWs l.reverse
  refine ⟨v.reverse, ?_⟩
  unfold trimR
  have : (v ++ l.reverse.dropWhile isWs).reverse = l.reverse.reverse := by rw [hv]
  rw [List.reverse_append, List.reverse_reverse] at this
  exact this

/-- Members of `trimR l` are members of `l`. -/
theorem mem_of_mem_trimR (l : List Char) (a : Char) (h : a ∈ trimR l) : a ∈ l := by
  obtain ⟨u, hu⟩ := trimR_prefix_exists l
  rw [← hu]
  exact List.mem_append_left u h

/-- `trimR` preserves an existing non-space head. -/
theorem noLeadSpace_trimR (l : List Char) (h : noLeadSpace l = true) :
    noLeadSpace (trimR l) = true := by
  cases hl : trimR l with
  | nil => rfl
  | cons c t =>
      obtain ⟨u, hu⟩ := trimR_prefix_exists l
      rw [hl] at hu
      rw [← hu] at h
      simpa [noLeadSpace] using h

/-- The trimmed-right list has no trailing whitespace, so no trailing
space. -/
theorem noTrailSpace_trimR (l : List Char) : noTrailSpace (trimR l) = true := by
  unfold noTrailSpace
  cases hg : (trimR l).getLast? with
  | none => rfl
  | some c =>
      have hrev : (trimR l).reverse = l.reverse.dropWhile isWs := by
        unfold trimR
        rw [List.reverse_reverse]
      have hhead : (trimR l).reverse.head? = some c := by
        rw [List.head?_reverse, hg]
      rw [hrev] at hhead
      cases hdw : l.reverse.dropWhile isWs with
      | nil => rw [hdw] at hhead; exact absurd hhead (by simp)
      | cons d t =>
          rw [hdw] at hhead
          have hd : d = c := by simpa using hhead
          have hws : isWs d = false := head_dropWhile_false isWs l.reverse d t hdw
          rw [← hd]
          have hbe : (d == ' ') = false := by
            cases hb : d == ' ' with
            | false => rfl
            | true =>
                exfalso
                have : d = ' ' := beq_iff_eq.mp hb
                rw [this] at hws
                exact Bool.noConfusion hws
          show (!(d == ' ')) = true
          rw [hbe]
          rfl

/-- The head of `dropWhile isWs` is not a space. -/
theorem noLeadSpace_dropWhile (l : List Char) :
    noLeadSpace (l.dropWhile isWs) = true := by
  cases hdw : l.dropWhile isWs with
  | nil => rfl
  | cons c t =>
      have hws : isWs c = false := head_dropWhile_false isWs l c t hdw
      have : (c == ' ') = false := by
        cases hb : c == ' ' with
        | false => rfl
        | true =>
            exfalso
            have : c = ' ' := beq_iff_eq.mp hb
            rw [this] at hws
            exact Bool.noConfusion hws
      simp [noLeadSpace, this]

/-- `stripL` of an all-kept list: all-kept, no leading space, no trailing
space. -/
theorem stripL_props (l : List Char) (h : allKeep l = true) :
    allKeep (stripL l) = true ∧ noLeadSpace (stripL l) = true
      ∧ noTrailSpace (stripL l) = true := by
  unfold stripL
  refine ⟨?_, noLeadSpace_trimR _ (noLeadSpace_dropWhile l), noTrailSpace_trimR _⟩
  refine List.all_eq_true.mpr ?_
  intro x hx
  exact List.all_eq_true.mp h x
    (mem_of_mem_dropWhileL isWs l x (mem_of_mem_trimR _ x hx))

/-- `squeeze` of a non-empty list is non-empty. -/
theorem sq_ne_nil : ∀ l : List Char, l ≠ [] → squeeze l ≠ []
  | [], h => absurd rfl h
  | [c], _ => by simp [squeeze]
  | c :: d :: rest, _ => by
      unfold squeeze
      by_cases h : (c == ' ' && d == ' ') = true
      · rw [if_pos h]
        exact sq_ne_nil (d :: rest) (by simp)
      · rw [if_neg h]
        simp

/-- Members of `squeeze l` are members of `l`. -/
theorem mem_of_mem_squeeze : ∀ (l : List Char) (a : Char), a ∈ squeeze l → a ∈ l
  | [], _, h => by simp [squeeze] at h
  | [c], a, h => by simpa [squeeze] using h
  | c :: d :: rest, a, h => by
      unfold squeeze at h
      by_cases hb : (c == ' ' && d == ' ') = true
      · rw [if_pos hb] at h
        exact List.mem_cons_of_mem c (mem_of_mem_squeeze (d :: rest) a h)
      · rw [if_neg hb] at h
        rcases List.mem_cons.mp h with rfl | h'
        · exact List.mem_cons_self a _
        · exact List.mem_cons_of_mem c (mem_of_mem_squeeze (d :: rest) a h')

/-- `squeeze` keeps a non-space head in place. -/
theorem sq_head (d : Char) (rest : List Char) (hd : (d == ' ') = false) :
    ∃ t, squeeze (d :: rest) = d :: t := by
  cases rest with
  | nil => exact ⟨[], rfl⟩
  | cons e r =>
      refine ⟨squeeze (e :: r), ?_⟩
      show (if d == ' ' && e == ' ' then squeeze (e :: r) else d :: squeeze (e :: r))
          = d :: squeeze (e :: r)
      rw [hd, Bool.false_and]
      simp

/-- `squeeze` preserves a non-space lead. -/
theorem noLeadSpace_squeeze (l : List Char) (h : noLeadSpace l = true) :
    noLeadSpace (squeeze l) = true := by
  cases l with
  | nil => rfl
  | cons c t =>
      have hc : (c == ' ') = false := by
        have h2 : (!(c == ' ')) = true := h
        cases hb : c == ' ' with
        | false => rfl
        | true => rw [hb] at h2; exact absurd h2 (by simp)
      obtain ⟨u, hu⟩ := sq_head c t hc
      rw [hu]
      simp [noLeadSpace, hc]

/-- The output of `squeeze` has no doubled spaces. -/
theorem noDoubleSpace_squeeze : ∀ l : List Char, noDoubleSpace (squeeze l) = true
  | [] => rfl
  | [c] => rfl
  | c :: d :: rest => by
      unfold squeeze
      by_cases h : (c == ' ' && d == ' ') = true
      · rw [if_pos h]
        exact noDoubleSpace_squeeze (d :: rest)
      · rw [if_neg h]
        have hrec := noDoubleSpace_squeeze (d :: rest)
        cases hq : squeeze (d :: rest) with
        | nil => rfl
        | cons x t =>
            rw [hq] at hrec
            show (!(c == ' ' && x == ' ') && noDoubleSpace (x :: t)) = true
            rw [hrec, Bool.and_true]
            by_cases hc : (c == ' ') = true
            · have hd : (d == ' ') = false := by
                cases hb : d == ' ' with
                | false => rfl
                | true =>
                    exact absurd (by rw [hc, hb] : (c == ' ' && d == ' ') = (true && true)) h
              obtain ⟨t2, ht2⟩ := sq_head d rest hd
              rw [ht2] at hq
              have hx : x = d := (List.cons_eq_cons.mp hq).1.symm
              rw [hx, hd, Bool.and_false]
              rfl
            · have hc' : (c == ' ') = false := by
                cases hb : c == ' ' with
                | false => rfl
                | true => exact absurd hb hc
              rw [hc', Bool.false_and]
              rfl

/-- `squeeze` does not change the last element. -/
theorem getLast_squeeze : ∀ l : List Char, (squeeze l).getLast? = l.getLast?
  | [] => rfl
  | [c] => rfl
  | c :: d :: rest => by
      unfold squeeze
      by_cases h : (c == ' ' && d == ' ') = true
      · rw [if_pos h, getLast_squeeze (d :: rest), List.getLast?_cons_cons]
      · rw [if_neg h]
        have h1 : (c :: squeeze (d :: rest)).getLast? = (squeeze (d :: rest)).getLast? := by
          cases hq : squeeze (d :: rest) with
          | nil => exact absurd hq (sq_ne_nil (d :: rest) (by simp))
          | cons x t => exact List.getLast?_cons_cons
        rw [h1, getLast_squeeze (d :: rest)]
        exact (List.getLast?_cons_cons).symm

/-- `squeeze` preserves the absence of a trailing space. -/
theorem noTrailSpace_squeeze (l : List Char) (h : noTrailSpace l = true) :
    noTrailSpace (squeeze l) = true := by
  unfold noTrailSpace at h ⊢
  rw [getLast_squeeze]
  exact h

/-- A list without doubled spaces is fixed by `squeeze`. -/
theorem squeeze_of_noDouble : ∀ l : List Char, noDoubleSpace l = true → squeeze l = l
  | [], _ => rfl
  | [c], _ => rfl
  | c :: d :: rest, h => by
      have hparts : (!(c == ' ' && d == ' ')) = true ∧ noDoubleSpace (d :: rest) = true := by
        have := h
        unfold noDoubleSpace at this
        exact Bool.and_eq_true_iff.mp this
      have hfalse : (c == ' ' && d == ' ') = false := by
        cases hcd : (c == ' ' && d == ' ') with
        | false => rfl
        | true =>
            have := hparts.1
            rw [hcd] at this
            exact absurd this (by simp)
      unfold squeeze
      rw [if_neg (by simp [hfalse])]
      rw [squeeze_of_noDouble (d :: rest) hparts.2]

/-- Unpack the canonical-form conjunction. -/
theorem canonical_parts (l : List Char) (h : canonicalChars l = true) :
    allKeep l = true ∧ noDoubleSpace l = true ∧ noLeadSpace l = true
      ∧ noTrailSpace l = true := by
  have := h
  unfold canonicalChars at this
  simp only [Bool.and_eq_true] at this
  exact ⟨this.1.1.1, this.1.1.2, this.1.2, this.2⟩

/-- A list with no boundary spaces and only kept characters is fixed by
`stripL`. -/
theorem stripL_of_clean (t : List Char) (hk : allKeep t = true)
    (hl : noLeadSpace t = true) (ht : noTrailSpace t = true) : stripL t = t := by
  have hdrop : t.dropWhile isWs = t := by
    cases t with
    | nil => rfl
    | cons c r =>
        have hc : isKeep c = true := by
          simpa using List.all_eq_true.mp hk c (List.mem_cons_self c r)
        have hcs : ¬c = ' ' := by
          intro hcc
          have h2 : (!(c == ' ')) = true := hl
          rw [hcc] at h2
          exact absurd h2 (by decide)
        rw [List.dropWhile_cons, if_neg (by simp [not_isWs_of_isKeep_ne_space c hc hcs])]
  have htrim : trimR t = t := by
    unfold trimR
    have hrt : t.reverse.dropWhile isWs = t.reverse := by
      cases hr : t.reverse with
      | nil => rfl
      | cons c r =>
          have hc : isKeep c = true := by
            have hmem : c ∈ t := by
              rw [← List.mem_reverse, hr]
              exact List.mem_cons_self c r
            simpa using List.all_eq_true.mp hk c hmem
          have hlast : t.getLast? = some c := by
            rw [← List.head?_reverse, hr]
            rfl
          have hcs : ¬c = ' ' := by
            intro hcc
            have h2 := ht
            unfold noTrailSpace at h2
            rw [hlast, hcc] at h2
            exact absurd h2 (by decide)
          rw [List.dropWhile_cons, if_neg (by simp [not_isWs_of_isKeep_ne_space c hc hcs])]
    rw [hrt, List.reverse_reverse]
  unfold stripL
  rw [hdrop, htrim]

/-- For all-kept input the normalizer is exactly `squeeze` after `stripL`. -/
theorem normList_eq_squeeze_stripL (l : List Char) (h : allKeep l = true) :
    normList l = squeeze (stripL l) := by
  obtain ⟨hk2, hl2, ht2⟩ := stripL_props l h
  unfold normList
  rw [map_toLower_of_allKeep l h, map_toSpace_of_allKeep _ hk2]
  refine filter_isKeep_of_allKeep _ ?_
  refine List.all_eq_true.mpr ?_
  intro x hx
  exact List.all_eq_true.mp hk2 x (mem_of_mem_squeeze _ x hx)

/-- For all-kept input the normalizer output is canonical. -/
theorem normList_canonical (l : List Char) (h : allKeep l = true) :
    canonicalChars (normList l) = true := by
  obtain ⟨hk2, hl2, ht2⟩ := stripL_props l h
  rw [normList_eq_squeeze_stripL l h]
  unfold canonicalChars
  have hka : allKeep (squeeze (stripL l)) = true := by
    refine List.all_eq_true.mpr ?_
    intro x hx
    exact List.all_eq_true.mp hk2 x (mem_of_mem_squeeze _ x hx)
  rw [hka, noDoubleSpace_squeeze, noLeadSpace_squeeze _ hl2, noTrailSpace_squeeze _ ht2]
  rfl

/-- Canonical lists are fixed points of the normalizer. -/
theorem normList_of_canonical (t : List Char) (h : canonicalChars t = true) :
    normList t = t := by
  obtain ⟨hk, hd, hl, ht⟩ := canonical_parts t h
  unfold normList
  rw [map_toLower_of_allKeep t hk, stripL_of_clean t hk hl ht,
    map_toSpace_of_allKeep t hk, squeeze_of_noDouble t hd,
    filter_isKeep_of_allKeep t hk]

/-- On all-kept input, `normalize_symptom` computes the same list as
`_norm` (the final extra `strip` finds nothing left to remove). -/
theorem normalize_symptom_list_eq (l : List Char) (h : allKeep l = true) :
    normalize_symptom_list l = normList l := by
  obtain ⟨hk2, hl2, ht2⟩ := stripL_props l h
  have hka : allKeep (squeeze (stripL l)) = true := by
    refine List.all_eq_true.mpr ?_
    intro x hx
    exact List.all_eq_true.mp hk2 x (mem_of_mem_squeeze _ x hx)
  unfold normalize_symptom_list
  rw [map_toLower_of_allKeep _ hk2, map_toSpace_of_allKeep _ hk2,
    filter_isKeep_of_allKeep _ hka,
    stripL_of_clean _ hka (noLeadSpace_squeeze _ hl2) (noTrailSpace_squeeze _ ht2),
    normList_eq_squeeze_stripL l h]

/-- C3 amended: the output of `_norm` always consists only of lowercase
letters, digits and spaces; but full idempotence holds only on inputs that
already consist of such characters (then a second application of either
normalizer is the identity).  In general punctuation or underscore removal
can leave boundary or doubled spaces, so a second application differs — see
`C3_counterexample`. -/
theorem C3_normalization (s : String) :
    (∀ c ∈ (_norm s).data, isKeep c = true)
  ∧ (allKeep s.data = true →
      _norm (_norm s) = _norm s
      ∧ normalize_symptom (normalize_symptom s) = normalize_symptom s) := by
  constructor
  · intro c hc
    exact List.of_mem_filter hc
  · intro h
    have hcan := normList_canonical s.data h
    have hk : allKeep (normList s.data) = true := (canonical_parts _ hcan).1
    constructor
    · show String.mk (normList (normList s.data)) = String.mk (normList s.data)
      rw [normList_of_canonical _ hcan]
    · show String.mk (normalize_symptom_list (normalize_symptom_list s.data))
          = String.mk (normalize_symptom_list s.data)
      rw [normalize_symptom_list_eq s.data h, normalize_symptom_list_eq _ hk,
        normList_of_canonical _ hcan]

/-- Witness for C3 at the clean string `"chest pain"`: both normalizers are
idempotent there, and the charset guarantee holds. -/
theorem C3_witness :
    (∀ c ∈ (_norm "chest pain").data, isKeep c = true)
  ∧ _norm (_norm "chest pain") = _norm "chest pain"
  ∧ normalize_symptom (normalize_symptom "chest pain") = normalize_symptom "chest pain" := by
  have h := C3_normalization "chest pain"
  have h2 := h.2 (by decide)
  exact ⟨h.1, h2.1, h2.2⟩
